import Mathlib

/-!
Verification of the `wos` Wallet of Satoshi API client.

Go strings are embedded as lists of byte values (`List Nat`, each element
below 256).  Go `uint64` arithmetic is embedded as `Nat` arithmetic reduced
modulo `2 ^ 64`; Go `byte` (`uint8`) arithmetic is reduced modulo 256.
Fallible Go functions returning `(T, error)` are embedded as `Except E T`
or `Option T`, with error kinds tracked where callers branch on them via
`errors.Is`.
-/

namespace Wos

instance {ε α : Type} [DecidableEq ε] [DecidableEq α] : DecidableEq (Except ε α) := fun x y =>
  match x, y with
  | .ok a, .ok b => if h : a = b then .isTrue (by rw [h]) else .isFalse (by simp [h])
  | .error a, .error b => if h : a = b then .isTrue (by rw [h]) else .isFalse (by simp [h])
  | .ok _, .error _ => .isFalse (by simp)
  | .error _, .ok _ => .isFalse (by simp)

/-- Go unsigned 64-bit multiplication: the product reduced modulo 2^64. -/
def goMul64 (a b : Nat) : Nat := (a * b) % (2 ^ 64)

/-- Go byte subtraction: `uint8` arithmetic, i.e. subtraction modulo 256. -/
def goByteSub (a b : Nat) : Nat := (a % 256 + 256 - b % 256) % 256

/-- Test for an ASCII decimal digit byte (characters 0 through 9). -/
def isDigitByte (b : Nat) : Bool := 48 ≤ b && b ≤ 57

/-- Numeric value accumulated by reading decimal digit bytes left to right,
exactly as `strconv.ParseUint` accumulates digits. -/
def digitsVal (l : List Nat) : Nat := l.foldl (fun acc b => acc * 10 + (b - 48)) 0

/-- Embedding of Go `strconv.ParseUint(s, 10, 64)`: succeeds exactly on a
non-empty all-digit string whose value fits in an unsigned 64-bit integer
(signs and underscores are syntax errors in base 10, and values of 2^64 or
more are range errors). -/
def parseUint64 (l : List Nat) : Option Nat :=
  if l ≠ [] ∧ l.all isDigitByte ∧ digitsVal l < 2 ^ 64 then some (digitsVal l) else none

/-- Error cases of `decodeAmount`, one constructor per distinct failure
branch in the source. -/
inductive AmountError where
  | emptyAmount
  | parseFail
  | emptyNum
  | belowMinimumP
  | notExpressibleP
  | unknownMultiplier (c : Nat)
deriving DecidableEq

/-- Embedding of `decodeAmount` (invoice parsing file): decodes the amount
suffix of a BOLT11 human-readable part into millisatoshi.  The Go source
checks `digit >= 0 && digit <= 9` on the byte `lastHRPChar - '0'`; the
`>= 0` conjunct is vacuous on an unsigned byte, so only `digit <= 9`
remains.  All multiplications are Go `uint64` multiplications. -/
def decodeAmount (amount : List Nat) : Except AmountError Nat :=
  if amount.length < 1 then .error .emptyAmount
  else
    let lastHRPChar := amount.getLastD 0
    let digit := goByteSub lastHRPChar 48
    if digit ≤ 9 then
      match parseUint64 amount with
      | none => .error .parseFail
      | some btc => .ok (goMul64 (goMul64 btc 100000000) 1000)
    else
      let num := amount.dropLast
      if num.length < 1 then .error .emptyNum
      else
        match parseUint64 num with
        | none => .error .parseFail
        | some am =>
          if lastHRPChar = 112 then
            if am < 10 then .error .belowMinimumP
            else if am % 10 ≠ 0 then .error .notExpressibleP
            else .ok (am / 10)
          else if lastHRPChar = 110 then .ok (goMul64 am 100)
          else if lastHRPChar = 117 then .ok (goMul64 am 100000)
          else if lastHRPChar = 109 then .ok (goMul64 am 100000000)
          else .error (.unknownMultiplier lastHRPChar)

/-- Parse of a non-empty all-digit string as an unbounded unsigned integer,
following the wording of claim C1, which states no 64-bit range limit. -/
def parseUnbounded (l : List Nat) : Option Nat :=
  if l ≠ [] ∧ l.all isDigitByte then some (digitsVal l) else none

/-- Reference decoder written from the words of claim C1: magnitudes parsed
as unbounded unsigned integers and all products exact ("all products are
exact integer millisatoshi values"), with no modular reduction. -/
def decodeAmountClaimRef (amount : List Nat) : Except AmountError Nat :=
  if amount.length < 1 then .error .emptyAmount
  else
    let last := amount.getLastD 0
    if 48 ≤ last ∧ last ≤ 57 then
      match parseUnbounded amount with
      | none => .error .parseFail
      | some btc => .ok (btc * 100000000000)
    else
      let num := amount.dropLast
      if num.length < 1 then .error .emptyNum
      else
        match parseUnbounded num with
        | none => .error .parseFail
        | some m =>
          if last = 112 then
            if m < 10 then .error .belowMinimumP
            else if m % 10 ≠ 0 then .error .notExpressibleP
            else .ok (m / 10)
          else if last = 110 then .ok (m * 100)
          else if last = 117 then .ok (m * 100000)
          else if last = 109 then .ok (m * 100000000)
          else .error (.unknownMultiplier last)

/-- Amended reference decoder for claim C1: identical to
`decodeAmountClaimRef` except that magnitudes are parsed as 64-bit unsigned
integers (failing at 2^64 and above, as `strconv.ParseUint` does) and every
product is reduced modulo 2^64 (Go `uint64` wraparound). -/
def decodeAmountClaimRefAmended (amount : List Nat) : Except AmountError Nat :=
  if amount.length < 1 then .error .emptyAmount
  else
    let last := amount.getLastD 0
    if 48 ≤ last ∧ last ≤ 57 then
      match parseUint64 amount with
      | none => .error .parseFail
      | some btc => .ok ((btc * 100000000000) % (2 ^ 64))
    else
      let num := amount.dropLast
      if num.length < 1 then .error .emptyNum
      else
        match parseUint64 num with
        | none => .error .parseFail
        | some m =>
          if last = 112 then
            if m < 10 then .error .belowMinimumP
            else if m % 10 ≠ 0 then .error .notExpressibleP
            else .ok (m / 10)
          else if last = 110 then .ok ((m * 100) % (2 ^ 64))
          else if last = 117 then .ok ((m * 100000) % (2 ^ 64))
          else if last = 109 then .ok ((m * 100000000) % (2 ^ 64))
          else .error (.unknownMultiplier last)

theorem getLastD_mem : ∀ (l : List Nat), l ≠ [] → l.getLastD 0 ∈ l
  | [_], _ => by simp
  | x :: y :: t, _ => by
    have ih := getLastD_mem (y :: t) (by simp)
    simp only [List.getLastD_cons] at *
    exact List.mem_cons_of_mem _ ih

theorem goMul64_chain (a : Nat) :
    goMul64 (goMul64 a 100000000) 1000 = (a * 100000000000) % (2 ^ 64) := by
  unfold goMul64
  rw [Nat.mod_mul_mod, mul_assoc]
  norm_num

set_option maxRecDepth 100000 in
/-- Claim C1, counterexample: on the amount suffix "1000000000" (one billion
whole bitcoin, ten ASCII bytes) the code multiplies in `uint64` and wraps
around, producing 10^20 mod 2^64 millisatoshi, while the claim's reference
definition demands the exact product 10^20. -/
theorem decodeAmount_claimC1_counterexample :
    decodeAmount [49, 48, 48, 48, 48, 48, 48, 48, 48, 48] = .ok 7766279631452241920 ∧
      decodeAmountClaimRef [49, 48, 48, 48, 48, 48, 48, 48, 48, 48] =
        .ok 100000000000000000000 ∧
      decodeAmount [49, 48, 48, 48, 48, 48, 48, 48, 48, 48] ≠
        decodeAmountClaimRef [49, 48, 48, 48, 48, 48, 48, 48, 48, 48] := by
  exact ⟨by decide, by decide, by decide⟩

/-- Claim C1 (amended): for every byte string, `decodeAmount` agrees with the
claim's reference definition once that reference is amended so that
magnitudes are parsed as 64-bit unsigned integers and every product is
reduced modulo 2^64 (Go `uint64` wraparound). -/
theorem decodeAmount_matches_claimC1_amended (amount : List Nat)
    (hb : ∀ b ∈ amount, b < 256) :
    decodeAmount amount = decodeAmountClaimRefAmended amount := by
  by_cases hlen : amount.length < 1
  · simp [decodeAmount, decodeAmountClaimRefAmended, hlen]
  · have hne : amount ≠ [] := by
      intro h
      subst h
      simp at hlen
    have hlt : amount.getLastD 0 < 256 := hb _ (getLastD_mem amount hne)
    by_cases hdig : 48 ≤ amount.getLastD 0 ∧ amount.getLastD 0 ≤ 57
    · have hgb : goByteSub (amount.getLastD 0) 48 ≤ 9 := by
        unfold goByteSub
        omega
      simp only [decodeAmount, decodeAmountClaimRefAmended, if_neg hlen, if_pos hgb,
        if_pos hdig]
      cases parseUint64 amount with
      | none => rfl
      | some btc => simp [goMul64_chain]
    · have hgb : ¬ goByteSub (amount.getLastD 0) 48 ≤ 9 := by
        unfold goByteSub
        omega
      simp only [decodeAmount, decodeAmountClaimRefAmended, if_neg hlen, if_neg hgb,
        if_neg hdig]
      by_cases hnum : amount.dropLast.length < 1
      · simp only [if_pos hnum]
      · simp only [if_neg hnum]
        cases parseUint64 amount.dropLast with
        | none => rfl
        | some am =>
          by_cases h112 : amount.getLastD 0 = 112
          · simp only [if_pos h112]
          · simp only [if_neg h112]
            by_cases h110 : amount.getLastD 0 = 110
            · simp only [if_pos h110]
              rfl
            · simp only [if_neg h110]
              by_cases h117 : amount.getLastD 0 = 117
              · simp only [if_pos h117]
                rfl
              · simp only [if_neg h117]
                by_cases h109 : amount.getLastD 0 = 109
                · simp only [if_pos h109]
                  rfl
                · simp only [if_neg h109]

/-- Claim C1 (amended) witness: the amended statement instantiated at the
concrete suffix "500n". -/
theorem decodeAmount_matches_claimC1_amended_witness :
    decodeAmount [53, 48, 48, 110] = decodeAmountClaimRefAmended [53, 48, 48, 110] :=
  decodeAmount_matches_claimC1_amended [53, 48, 48, 110] (by decide)

/-- Little-endian decimal digit bytes of a natural number, with an explicit
fuel argument for structural recursion; any fuel at least the digit count
gives the exact digit string. -/
def decDigitsRev : Nat → Nat → List Nat
  | 0, _ => []
  | _ + 1, 0 => []
  | fuel + 1, n + 1 => ((n + 1) % 10 + 48) :: decDigitsRev fuel ((n + 1) / 10)

/-- Modelled from the spec: claim C2 assigns encoding to the test harness,
which is not part of the embedded sources.  This is the canonical decimal
byte string of a natural number, most significant digit first. -/
def toDecimalBytes (n : Nat) : List Nat :=
  if n = 0 then [48] else (decDigitsRev n n).reverse

theorem decDigitsRev_eq : ∀ (fuel n : Nat), n ≤ fuel →
    decDigitsRev fuel n = (Nat.digits 10 n).map (fun d => d + 48)
  | 0, 0, _ => by simp [decDigitsRev]
  | 0, _ + 1, h => absurd h (by omega)
  | _ + 1, 0, _ => by simp [decDigitsRev]
  | fuel + 1, n + 1, _ => by
    have hr : (n + 1) / 10 ≤ fuel := by
      have := Nat.div_lt_self (Nat.succ_pos n) (by norm_num : 1 < 10)
      omega
    rw [decDigitsRev, decDigitsRev_eq fuel ((n + 1) / 10) hr,
      Nat.digits_def' (by norm_num : (1 : Nat) < 10) (Nat.succ_pos n)]
    simp

theorem toDecimalBytes_digits (n : Nat) : ∀ b ∈ toDecimalBytes n, 48 ≤ b ∧ b ≤ 57 := by
  intro b hb
  unfold toDecimalBytes at hb
  split at hb
  · simp at hb
    omega
  · rw [decDigitsRev_eq n n le_rfl, List.mem_reverse, List.mem_map] at hb
    obtain ⟨d, hd, rfl⟩ := hb
    have : d < 10 := Nat.digits_lt_base (by norm_num) hd
    omega

theorem toDecimalBytes_ne_nil (n : Nat) : toDecimalBytes n ≠ [] := by
  unfold toDecimalBytes
  split
  · simp
  · rw [decDigitsRev_eq n n le_rfl]
    simp only [ne_eq, List.reverse_eq_nil_iff, List.map_eq_nil_iff,
      Nat.digits_ne_nil_iff_ne_zero]
    omega

theorem foldr_eq_ofDigits : ∀ L : List Nat,
    List.foldr (fun d acc => acc * 10 + d) 0 L = Nat.ofDigits 10 L
  | [] => by simp [Nat.ofDigits]
  | d :: L => by
    rw [List.foldr_cons, foldr_eq_ofDigits L, Nat.ofDigits_cons]
    ring

theorem digitsVal_toDecimalBytes (n : Nat) : digitsVal (toDecimalBytes n) = n := by
  rcases Nat.eq_zero_or_pos n with rfl | hn
  · decide
  · have hne : n ≠ 0 := by omega
    unfold toDecimalBytes
    rw [if_neg hne, decDigitsRev_eq n n le_rfl]
    unfold digitsVal
    rw [List.foldl_reverse, List.foldr_map]
    have hfun : (fun (d : Nat) (y : Nat) => y * 10 + (d + 48 - 48)) =
        (fun (d : Nat) (y : Nat) => y * 10 + d) := by
      funext d y
      omega
    rw [hfun, foldr_eq_ofDigits, Nat.ofDigits_digits]

theorem parseUint64_toDecimalBytes (n : Nat) (h : n < 2 ^ 64) :
    parseUint64 (toDecimalBytes n) = some n := by
  have h1 := toDecimalBytes_ne_nil n
  have h2 : (toDecimalBytes n).all isDigitByte = true := by
    rw [List.all_eq_true]
    intro b hb
    have := toDecimalBytes_digits n b hb
    unfold isDigitByte
    simp only [Bool.and_eq_true, decide_eq_true_eq]
    omega
  unfold parseUint64
  rw [digitsVal_toDecimalBytes]
  rw [if_pos ⟨h1, h2, h⟩]

/-- The five amount forms of the BOLT11 human-readable part: bare whole-BTC
and the four multiplier characters. -/
inductive AmountUnit where
  | bare
  | milliBTC
  | microBTC
  | nanoBTC
  | picoBTC
deriving DecidableEq

/-- Modelled from the spec (claim C2 assigns encoding to the test harness):
canonical encoding of a millisatoshi amount in a unit, the smallest
magnitude followed by the unit character (no character for bare BTC). -/
def encodeAmount (msat : Nat) : AmountUnit → List Nat
  | .bare => toDecimalBytes (msat / 100000000000)
  | .milliBTC => toDecimalBytes (msat / 100000000) ++ [109]
  | .microBTC => toDecimalBytes (msat / 100000) ++ [117]
  | .nanoBTC => toDecimalBytes (msat / 100) ++ [110]
  | .picoBTC => toDecimalBytes (msat * 10) ++ [112]

/-- Expressibility of a millisatoshi amount in a unit as claim C2 reads it:
only the divisibility constraints (and, for pico, the positivity making the
magnitude at least 10). -/
def expressibleClaimC2 (msat : Nat) : AmountUnit → Prop
  | .bare => msat % 100000000000 = 0
  | .milliBTC => msat % 100000000 = 0
  | .microBTC => msat % 100000 = 0
  | .nanoBTC => msat % 100 = 0
  | .picoBTC => 1 ≤ msat

instance (msat : Nat) (u : AmountUnit) : Decidable (expressibleClaimC2 msat u) := by
  cases u <;> unfold expressibleClaimC2 <;> infer_instance

/-- Amended expressibility for claim C2: additionally the canonical magnitude
must fit in an unsigned 64-bit integer and the decoded product must not wrap
modulo 2^64. -/
def expressibleClaimC2Amended (msat : Nat) : AmountUnit → Prop
  | .bare => msat % 100000000000 = 0 ∧ msat < 2 ^ 64
  | .milliBTC => msat % 100000000 = 0 ∧ msat < 2 ^ 64
  | .microBTC => msat % 100000 = 0 ∧ msat < 2 ^ 64
  | .nanoBTC => msat % 100 = 0 ∧ msat < 2 ^ 64
  | .picoBTC => 1 ≤ msat ∧ msat * 10 < 2 ^ 64

instance (msat : Nat) (u : AmountUnit) : Decidable (expressibleClaimC2Amended msat u) := by
  cases u <;> unfold expressibleClaimC2Amended <;> infer_instance

theorem decodeAmount_concat_unit (m c : Nat) (hm : m < 2 ^ 64)
    (hc48 : ¬ goByteSub c 48 ≤ 9) :
    decodeAmount (toDecimalBytes m ++ [c]) =
      (if c = 112 then
        if m < 10 then .error .belowMinimumP
        else if m % 10 ≠ 0 then .error .notExpressibleP
        else .ok (m / 10)
      else if c = 110 then .ok (goMul64 m 100)
      else if c = 117 then .ok (goMul64 m 100000)
      else if c = 109 then .ok (goMul64 m 100000000)
      else .error (.unknownMultiplier c)) := by
  have hlen : ¬ (toDecimalBytes m ++ [c]).length < 1 := by simp
  have hnum : ¬ (toDecimalBytes m).length < 1 := by
    have := List.length_pos.mpr (toDecimalBytes_ne_nil m)
    omega
  unfold decodeAmount
  simp only [List.getLastD_concat, List.dropLast_concat, if_neg hlen, if_neg hc48,
    if_neg hnum, parseUint64_toDecimalBytes m hm]

/-- Claim C2, counterexample: A = 10^20 millisatoshi is expressible in
nano-BTC exactly as the claim reads (magnitude 10^18 with trailing 'n'),
but decoding the canonical encoding wraps modulo 2^64 and does not return
A. -/
theorem roundtrip_claimC2_counterexample :
    expressibleClaimC2 100000000000000000000 .nanoBTC ∧
      decodeAmount (encodeAmount 100000000000000000000 .nanoBTC) ≠
        .ok 100000000000000000000 := by
  exact ⟨by decide, by decide⟩

/-- Claim C2 (amended): for every millisatoshi amount expressible in a unit,
with the added requirement that the canonical magnitude fits in an unsigned
64-bit integer and the decoded product does not wrap modulo 2^64, decoding
the canonical encoding with `decodeAmount` returns exactly that amount. -/
theorem encode_decode_roundtrip (A : Nat) (u : AmountUnit)
    (h : expressibleClaimC2Amended A u) :
    decodeAmount (encodeAmount A u) = .ok A := by
  cases u with
  | bare =>
    obtain ⟨hdvd, hlt⟩ := h
    have hmlt : A / 100000000000 < 2 ^ 64 := lt_of_le_of_lt (Nat.div_le_self _ _) hlt
    have hne := toDecimalBytes_ne_nil (A / 100000000000)
    have hlast := toDecimalBytes_digits (A / 100000000000) _ (getLastD_mem _ hne)
    have hlen : ¬ (toDecimalBytes (A / 100000000000)).length < 1 := by
      have := List.length_pos.mpr hne
      omega
    have hgb : goByteSub ((toDecimalBytes (A / 100000000000)).getLastD 0) 48 ≤ 9 := by
      unfold goByteSub
      omega
    show decodeAmount (toDecimalBytes (A / 100000000000)) = .ok A
    unfold decodeAmount
    simp only [if_neg hlen, if_pos hgb, parseUint64_toDecimalBytes _ hmlt]
    rw [goMul64_chain]
    rw [Nat.div_mul_cancel (Nat.dvd_of_mod_eq_zero hdvd), Nat.mod_eq_of_lt hlt]
  | milliBTC =>
    obtain ⟨hdvd, hlt⟩ := h
    have hmlt : A / 100000000 < 2 ^ 64 := lt_of_le_of_lt (Nat.div_le_self _ _) hlt
    show decodeAmount (toDecimalBytes (A / 100000000) ++ [109]) = .ok A
    rw [decodeAmount_concat_unit _ 109 hmlt (by decide)]
    norm_num [goMul64]
    rw [Nat.div_mul_cancel (Nat.dvd_of_mod_eq_zero hdvd)]
    omega
  | microBTC =>
    obtain ⟨hdvd, hlt⟩ := h
    have hmlt : A / 100000 < 2 ^ 64 := lt_of_le_of_lt (Nat.div_le_self _ _) hlt
    show decodeAmount (toDecimalBytes (A / 100000) ++ [117]) = .ok A
    rw [decodeAmount_concat_unit _ 117 hmlt (by decide)]
    norm_num [goMul64]
    rw [Nat.div_mul_cancel (Nat.dvd_of_mod_eq_zero hdvd)]
    omega
  | nanoBTC =>
    obtain ⟨hdvd, hlt⟩ := h
    have hmlt : A / 100 < 2 ^ 64 := lt_of_le_of_lt (Nat.div_le_self _ _) hlt
    show decodeAmount (toDecimalBytes (A / 100) ++ [110]) = .ok A
    rw [decodeAmount_concat_unit _ 110 hmlt (by decide)]
    norm_num [goMul64]
    rw [Nat.div_mul_cancel (Nat.dvd_of_mod_eq_zero hdvd)]
    omega
  | picoBTC =>
    obtain ⟨hpos, hlt⟩ := h
    show decodeAmount (toDecimalBytes (A * 10) ++ [112]) = .ok A
    rw [decodeAmount_concat_unit _ 112 hlt (by decide)]
    have h10 : ¬ A * 10 < 10 := by omega
    have hmod : ¬ A * 10 % 10 ≠ 0 := by omega
    rw [if_pos rfl, if_neg h10, if_neg hmod, Nat.mul_div_cancel A (by norm_num : 0 < 10)]

/-- Claim C2 (amended) witness: 50,000 millisatoshi in nano-BTC encodes to
"500n" and decodes back to 50,000. -/
theorem encode_decode_roundtrip_witness :
    decodeAmount (encodeAmount 50000 .nanoBTC) = .ok 50000 :=
  encode_decode_roundtrip 50000 .nanoBTC (by decide)

/-- Error kinds a wos error value can wrap, as tested by `errors.Is`
against the three package sentinel errors. -/
inductive ErrKind where
  | invalidInvoice
  | noAmount
  | fixedAmount
deriving DecidableEq

/-- ASCII lowercasing of one byte: the effect of `strings.ToLower` on the
bytes relevant to the comparison with the mainnet identifier "bc" (no
non-ASCII rune lowercases to 'b' or 'c', and invalid UTF-8 re-encodes to
multi-byte replacement characters, so the comparison below agrees with the
Go original on every byte string). -/
def asciiToLower (b : Nat) : Nat := if 65 ≤ b ∧ b ≤ 90 then b + 32 else b

/-- Position of the first ASCII digit byte, as `strings.IndexAny` with the
set "1234567890" finds it (digits are single-byte runes, so rune scanning
and byte indexing coincide). -/
def firstDigitIdx (l : List Nat) : Option Nat := l.findIdx? (fun b => isDigitByte b)

/-- Embedding of `parseInvoiceAmount` applied to an already-decoded bech32
human-readable part (the source lines after the bech32 decode).  The value
returned is the exact millisatoshi amount from `decodeAmount`; the final
float64 conversion of the source is not consulted by any claim settled
here.  The network-identifier slice `hrp[2:firstNumber]` is well defined
because the prefix check guarantees the first digit sits at index 2 or
later. -/
def parseInvoiceAmountHRP (hrp : List Nat) : Except ErrKind Nat :=
  if hrp.length < 3 then .error .invalidInvoice
  else if hrp.take 2 ≠ [108, 110] then .error .invalidInvoice
  else
    match firstDigitIdx hrp with
    | none => .error .noAmount
    | some firstNumber =>
      if ((hrp.drop 2).take (firstNumber - 2)).map asciiToLower ≠ [98, 99] then
        .error .invalidInvoice
      else
        match decodeAmount (hrp.drop firstNumber) with
        | .error _ => .error .invalidInvoice
        | .ok msat => .ok msat

/-- Embedding of `parseInvoiceAmount`: the bech32 decoder lives in a
subpackage outside the embedded sources, so its outcome is taken as the
argument — `none` for a decode failure (wrapped as InvalidInvoice by the
source), `some hrp` for the decoded human-readable part. -/
def parseInvoiceAmount (bech32Hrp : Option (List Nat)) : Except ErrKind Nat :=
  match bech32Hrp with
  | none => .error .invalidInvoice
  | some hrp => parseInvoiceAmountHRP hrp

/-- Claim C3: with a successful bech32 decode, a human-readable part that is
shorter than 3 bytes or does not begin with "ln" fails with InvalidInvoice;
and whenever a digit exists, a network identifier that does not
case-insensitively equal "bc" fails with InvalidInvoice regardless of the
amount suffix after the digit. -/
theorem parseInvoiceAmount_claimC3 (hrp : List Nat) :
    ((hrp.length < 3 ∨ hrp.take 2 ≠ [108, 110]) →
      parseInvoiceAmount (some hrp) = .error .invalidInvoice) ∧
    (∀ i, firstDigitIdx hrp = some i →
      ((hrp.drop 2).take (i - 2)).map asciiToLower ≠ [98, 99] →
      parseInvoiceAmount (some hrp) = .error .invalidInvoice) := by
  constructor
  · intro h
    show parseInvoiceAmountHRP hrp = .error .invalidInvoice
    unfold parseInvoiceAmountHRP
    rcases h with h | h
    · rw [if_pos h]
    · by_cases h3 : hrp.length < 3
      · rw [if_pos h3]
      · rw [if_neg h3, if_pos h]
  · intro i hi hne
    show parseInvoiceAmountHRP hrp = .error .invalidInvoice
    unfold parseInvoiceAmountHRP
    by_cases h3 : hrp.length < 3
    · rw [if_pos h3]
    · rw [if_neg h3]
      by_cases h2 : hrp.take 2 ≠ [108, 110]
      · rw [if_pos h2]
      · rw [if_neg h2, hi]
        simp only []
        rw [if_pos hne]

/-- Claim C3 witness: the testnet human-readable part "lntb1m" has a
well-formed amount suffix but network identifier "tb", and fails with
InvalidInvoice. -/
theorem parseInvoiceAmount_claimC3_witness :
    parseInvoiceAmount (some [108, 110, 116, 98, 49, 109]) = .error .invalidInvoice :=
  (parseInvoiceAmount_claimC3 [108, 110, 116, 98, 49, 109]).2 4 (by decide) (by decide)

/-- Claim C4: with a successful bech32 decode, a human-readable part of at
least 3 bytes beginning with "ln" and containing no ASCII digit fails with
the distinct NoAmount kind, which differs from InvalidInvoice. -/
theorem parseInvoiceAmount_claimC4 (hrp : List Nat) (h3 : ¬ hrp.length < 3)
    (hln : hrp.take 2 = [108, 110]) (hnd : firstDigitIdx hrp = none) :
    parseInvoiceAmount (some hrp) = .error .noAmount ∧
      ErrKind.noAmount ≠ ErrKind.invalidInvoice := by
  refine ⟨?_, by decide⟩
  show parseInvoiceAmountHRP hrp = .error .noAmount
  unfold parseInvoiceAmountHRP
  rw [if_neg h3, if_neg (by simp [hln]), hnd]

/-- Claim C4 witness: the human-readable part "lnbc" with no digit fails
with NoAmount. -/
theorem parseInvoiceAmount_claimC4_witness :
    parseInvoiceAmount (some [108, 110, 98, 99]) = .error .noAmount ∧
      ErrKind.noAmount ≠ ErrKind.invalidInvoice :=
  parseInvoiceAmount_claimC4 [108, 110, 98, 99] (by decide) (by decide) (by decide)

/-- A Go error value as observed by the wallet callers: an error chain
wrapping one of the sentinel kinds, or the chain produced by applying the
wrapping format verb to a nil error (which wraps no sentinel). -/
inductive WalletErr where
  | wraps (k : ErrKind)
  | wrapsNil
deriving DecidableEq

/-- Embedding of `errors.Is(e, sentinel)`: a wrapped-nil chain matches no
sentinel. -/
def errIs (e : WalletErr) (k : ErrKind) : Bool :=
  match e with
  | .wraps j => j = k
  | .wrapsNil => false

/-- Outcome of the invoice-validation prefix of `Wallet.PayVariableInvoice`:
an early error return, or continuation into the payment submission. -/
inductive PayVariableOutcome where
  | failed (e : WalletErr)
  | submitsPayment
deriving DecidableEq

/-- Embedding of the invoice validation in `Wallet.PayVariableInvoice`
(wallet.go): a parse error other than NoAmount is wrapped and returned; on
parse success the source wraps the nil `err` value, yielding an error that
wraps no sentinel; only a NoAmount parse failure proceeds to submit the
payment. -/
def payVariableInvoice (parsed : Except ErrKind Nat) : PayVariableOutcome :=
  match parsed with
  | .error k => if k ≠ .noAmount then .failed (.wraps k) else .submitsPayment
  | .ok _ => .failed .wrapsNil

/-- Claim C9 fails on the code: for the fixed-amount human-readable part
"lnbc1m" the parse succeeds, and `PayVariableInvoice` wraps the nil error
value instead of ErrFixedAmount, so `errors.Is` against ErrFixedAmount is
false — contradicting both the claim and the method's own doc comment. -/
theorem payVariableInvoice_claimC9_code_bug :
    parseInvoiceAmount (some [108, 110, 98, 99, 49, 109]) = .ok 100000000 ∧
      payVariableInvoice (parseInvoiceAmount (some [108, 110, 98, 99, 49, 109])) =
        .failed .wrapsNil ∧
      errIs .wrapsNil .fixedAmount = false := by
  exact ⟨by decide, by decide, by decide⟩

/-- Outcome of the invoice-validation prefix of `Wallet.SweepLightning`:
an early error return before any balance or fee fetch, or continuation
into the balance-and-fee fetch and payment submission. -/
inductive SweepLightningOutcome where
  | failed (e : WalletErr)
  | proceedsToSweep
deriving DecidableEq

/-- Embedding of the invoice validation in `Wallet.SweepLightning`
(wallet.go): unless `errors.Is(err, ErrNoAmount)` holds for the parse
outcome — in particular also when the parse fails with InvalidInvoice or
succeeds — the method returns an error wrapping ErrFixedAmount without
fetching balance or fees. -/
def sweepLightning (parsed : Except ErrKind Nat) : SweepLightningOutcome :=
  match parsed with
  | .error .noAmount => .proceedsToSweep
  | _ => .failed (.wraps .fixedAmount)

/-- Claim C10: for every bech32 outcome, any early failure of SweepLightning
wraps ErrFixedAmount (never ErrInvalidInvoice), the method fails that way
exactly when the parse outcome is not a NoAmount failure, and it proceeds
to the balance-and-fee fetch exactly on a NoAmount parse failure. -/
theorem sweepLightning_claimC10 (bech32Hrp : Option (List Nat)) :
    (∀ e, sweepLightning (parseInvoiceAmount bech32Hrp) = .failed e →
      e = .wraps .fixedAmount ∧ errIs e .fixedAmount = true ∧
        errIs e .invalidInvoice = false) ∧
    (parseInvoiceAmount bech32Hrp ≠ .error .noAmount ↔
      sweepLightning (parseInvoiceAmount bech32Hrp) = .failed (.wraps .fixedAmount)) ∧
    (parseInvoiceAmount bech32Hrp = .error .noAmount ↔
      sweepLightning (parseInvoiceAmount bech32Hrp) = .proceedsToSweep) := by
  cases hp : parseInvoiceAmount bech32Hrp with
  | ok v => refine ⟨?_, ?_, ?_⟩ <;> simp [sweepLightning, errIs]
  | error k =>
    cases k <;> refine ⟨?_, ?_, ?_⟩ <;> simp [sweepLightning, errIs]

/-- Claim C10 witness: the one-byte human-readable part "x" parses to
InvalidInvoice, and SweepLightning fails wrapping ErrFixedAmount. -/
theorem sweepLightning_claimC10_witness :
    sweepLightning (parseInvoiceAmount (some [120])) = .failed (.wraps .fixedAmount) :=
  (sweepLightning_claimC10 (some [120])).2.1.mp (by decide)

/-- Outcome of `Wallet.SweepOnChain` after the balance-and-fee fetch:
either of the two insufficient-funds error returns, or submission of a
payment request carrying the computed amount.  The Go float64 quantities
are embedded as exact rationals. -/
inductive SweepOnChainOutcome where
  | insufficientForFee
  | insufficientForCommission
  | pays (amount : ℚ)
deriving DecidableEq

/-- Embedding of the sweep computation in `Wallet.SweepOnChain` (wallet.go):
availableBalance is the confirmed balance minus the fixed fee, failing when
negative; the commission is the commission rate times the whole confirmed
balance; the amount is availableBalance minus commission, failing when not
positive; otherwise the payment request carries exactly that amount. -/
def sweepOnChain (confirmed btcFixedFee btcSendCommissionPercent : ℚ) :
    SweepOnChainOutcome :=
  let availableBalance := confirmed - btcFixedFee
  if availableBalance < 0 then .insufficientForFee
  else
    let commission := btcSendCommissionPercent * confirmed
    let amount := availableBalance - commission
    if amount ≤ 0 then .insufficientForCommission
    else .pays amount

/-- Claim C5: the on-chain sweep fails with the fixed-fee error exactly when
confirmed − fee is negative; given a non-negative available balance it
fails with the commission error exactly when available − rate × confirmed
is not positive; and otherwise it submits a payment of exactly
available − rate × confirmed, the rate applying to the whole confirmed
balance. -/
theorem sweepOnChain_claimC5 (C F r : ℚ) :
    (sweepOnChain C F r = .insufficientForFee ↔ C - F < 0) ∧
    (0 ≤ C - F →
      (sweepOnChain C F r = .insufficientForCommission ↔ C - F - r * C ≤ 0)) ∧
    (0 ≤ C - F → 0 < C - F - r * C →
      sweepOnChain C F r = .pays (C - F - r * C)) := by
  refine ⟨?_, ?_, ?_⟩
  · by_cases h1 : C - F < 0
    · simp [sweepOnChain, h1]
    · by_cases h2 : C - F - r * C ≤ 0 <;> simp [sweepOnChain, h1, h2]
  · intro hge
    have h1 : ¬ C - F < 0 := by linarith
    by_cases h2 : C - F - r * C ≤ 0 <;> simp [sweepOnChain, h1, h2]
  · intro hge hpos
    have h1 : ¬ C - F < 0 := by linarith
    have h2 : ¬ C - F - r * C ≤ 0 := by linarith
    simp [sweepOnChain, h1, h2]

/-- Claim C5 witness: confirmed 1 BTC, fixed fee 0.0001, commission rate
0.01 submits a payment of 0.9899 BTC. -/
theorem sweepOnChain_claimC5_witness :
    sweepOnChain 1 (1 / 10000) (1 / 100) = .pays (1 - 1 / 10000 - 1 / 100 * 1) :=
  (sweepOnChain_claimC5 1 (1 / 10000) (1 / 100)).2.2 (by norm_num) (by norm_num)

example : sweepOnChain 1 (1 / 10000) (1 / 100) = .pays (9899 / 10000) := by
  norm_num [sweepOnChain]

example : sweepOnChain (5 / 100000) (1 / 10000) 0 = .insufficientForFee := by
  norm_num [sweepOnChain]

/-- Right rotation of a 32-bit word. -/
def rotr32 (n x : Nat) : Nat := x / 2 ^ n + x % 2 ^ n * 2 ^ (32 - n)

/-- SHA-256 lowercase sigma-0 (FIPS 180-4). -/
def ssig0 (x : Nat) : Nat := rotr32 7 x ^^^ rotr32 18 x ^^^ x / 2 ^ 3

/-- SHA-256 lowercase sigma-1 (FIPS 180-4). -/
def ssig1 (x : Nat) : Nat := rotr32 17 x ^^^ rotr32 19 x ^^^ x / 2 ^ 10

/-- SHA-256 uppercase sigma-0 (FIPS 180-4). -/
def bsig0 (x : Nat) : Nat := rotr32 2 x ^^^ rotr32 13 x ^^^ rotr32 22 x

/-- SHA-256 uppercase sigma-1 (FIPS 180-4). -/
def bsig1 (x : Nat) : Nat := rotr32 6 x ^^^ rotr32 11 x ^^^ rotr32 25 x

/-- SHA-256 choice function; the 32-bit complement of x is x xor 2^32−1. -/
def chf (x y z : Nat) : Nat := x &&& y ^^^ ((x ^^^ 4294967295) &&& z)

/-- SHA-256 majority function. -/
def majf (x y z : Nat) : Nat := x &&& y ^^^ (x &&& z) ^^^ (y &&& z)

/-- Largest r with r^3 at most n, by bisection with explicit fuel; 40
halvings of the bracket (0, 2^35) decide every cube root arising below. -/
def icbrtAux (n : Nat) : Nat → Nat → Nat → Nat
  | 0, lo, _ => lo
  | fuel + 1, lo, hi =>
    if hi ≤ lo + 1 then lo
    else
      let mid := (lo + hi) / 2
      if mid * mid * mid ≤ n then icbrtAux n fuel mid hi else icbrtAux n fuel lo mid

/-- Integer cube root (floor), for arguments below 2^105. -/
def icbrt (n : Nat) : Nat := icbrtAux n 40 0 (2 ^ 35)

/-- The first 64 primes, whose cube and square roots seed the SHA-256
constants. -/
def first64Primes : List Nat :=
  [2, 3, 5, 7, 11, 13, 17, 19, 23, 29, 31, 37, 41, 43, 47, 53, 59, 61, 67, 71,
   73, 79, 83, 89, 97, 101, 103, 107, 109, 113, 127, 131, 137, 139, 149, 151,
   157, 163, 167, 173, 179, 181, 191, 193, 197, 199, 211, 223, 227, 229, 233,
   239, 241, 251, 257, 263, 269, 271, 277, 281, 283, 293, 307, 311]

/-- SHA-256 round constants (FIPS 180-4): the first 32 bits of the
fractional parts of the cube roots of the first 64 primes, computed here
exactly and checked against the standard test vectors below. -/
def sha256K : List Nat :=
  first64Primes.map fun p => icbrt (p * 2 ^ 96) - 2 ^ 32 * icbrt p

/-- Largest r with r^2 at most n, by bisection with explicit fuel; 40
halvings of the bracket (0, 2^35) decide every square root arising below. -/
def isqrtAux (n : Nat) : Nat → Nat → Nat → Nat
  | 0, lo, _ => lo
  | fuel + 1, lo, hi =>
    if hi ≤ lo + 1 then lo
    else
      let mid := (lo + hi) / 2
      if mid * mid ≤ n then isqrtAux n fuel mid hi else isqrtAux n fuel lo mid

/-- Integer square root (floor), for arguments below 2^70. -/
def isqrt (n : Nat) : Nat := isqrtAux n 40 0 (2 ^ 35)

/-- SHA-256 initial hash state (FIPS 180-4): the first 32 bits of the
fractional parts of the square roots of the first 8 primes. -/
def sha256H0 : List Nat :=
  (first64Primes.take 8).map fun p => isqrt (p * 2 ^ 64) - 2 ^ 32 * isqrt p

/-- Big-endian assembly of 32-bit words from groups of four bytes. -/
def toWords32 : List Nat → List Nat
  | b0 :: b1 :: b2 :: b3 :: rest =>
    (b0 * 2 ^ 24 + b1 * 2 ^ 16 + b2 * 2 ^ 8 + b3) :: toWords32 rest
  | _ => []

/-- Message-schedule extension, accumulating words most recent first. -/
def extendW : Nat → List Nat → List Nat
  | 0, acc => acc
  | k + 1, acc =>
    let w := (ssig1 (acc.getD 1 0) + acc.getD 6 0 + ssig0 (acc.getD 14 0) +
      acc.getD 15 0) % 2 ^ 32
    extendW k (w :: acc)

/-- The eight working variables of the SHA-256 compression loop. -/
structure Sha256State where
  a : Nat
  b : Nat
  c : Nat
  d : Nat
  e : Nat
  f : Nat
  g : Nat
  hh : Nat

/-- One SHA-256 compression round. -/
def sha256Round (st : Sha256State) (w k : Nat) : Sha256State :=
  let t1 := (st.hh + bsig1 st.e + chf st.e st.f st.g + k + w) % 2 ^ 32
  let t2 := (bsig0 st.a + majf st.a st.b st.c) % 2 ^ 32
  { a := (t1 + t2) % 2 ^ 32, b := st.a, c := st.b, d := st.c,
    e := (st.d + t1) % 2 ^ 32, f := st.e, g := st.f, hh := st.g }

/-- SHA-256 compression of one 64-byte block into the running hash state. -/
def sha256Compress (hs block : List Nat) : List Nat :=
  let w := (extendW 48 (toWords32 block).reverse).reverse
  let init : Sha256State :=
    ⟨hs.getD 0 0, hs.getD 1 0, hs.getD 2 0, hs.getD 3 0,
     hs.getD 4 0, hs.getD 5 0, hs.getD 6 0, hs.getD 7 0⟩
  let fin := (w.zip sha256K).foldl (fun st wk => sha256Round st wk.1 wk.2) init
  [(hs.getD 0 0 + fin.a) % 2 ^ 32, (hs.getD 1 0 + fin.b) % 2 ^ 32,
   (hs.getD 2 0 + fin.c) % 2 ^ 32, (hs.getD 3 0 + fin.d) % 2 ^ 32,
   (hs.getD 4 0 + fin.e) % 2 ^ 32, (hs.getD 5 0 + fin.f) % 2 ^ 32,
   (hs.getD 6 0 + fin.g) % 2 ^ 32, (hs.getD 7 0 + fin.hh) % 2 ^ 32]

/-- Big-endian 8-byte encoding of a 64-bit value. -/
def be64Bytes (n : Nat) : List Nat :=
  [n / 2 ^ 56 % 256, n / 2 ^ 48 % 256, n / 2 ^ 40 % 256, n / 2 ^ 32 % 256,
   n / 2 ^ 24 % 256, n / 2 ^ 16 % 256, n / 2 ^ 8 % 256, n % 256]

/-- Big-endian 4-byte encoding of a 32-bit word. -/
def be32Bytes (n : Nat) : List Nat :=
  [n / 2 ^ 24 % 256, n / 2 ^ 16 % 256, n / 2 ^ 8 % 256, n % 256]

/-- SHA-256 message padding: a 0x80 byte, zeros to 56 mod 64, and the
bit length as a big-endian 64-bit value. -/
def sha256Pad (msg : List Nat) : List Nat :=
  msg ++ [128] ++ List.replicate ((119 - msg.length % 64) % 64) 0 ++
    be64Bytes (msg.length * 8 % 2 ^ 64)

/-- Split into 64-byte blocks, with fuel for structural recursion; fuel at
least the length splits the whole list. -/
def chunks64 : Nat → List Nat → List (List Nat)
  | 0, _ => []
  | _ + 1, [] => []
  | fuel + 1, x :: rest => (x :: rest).take 64 :: chunks64 fuel ((x :: rest).drop 64)

/-- SHA-256 of a byte string (FIPS 180-4), checked below against standard
test vectors. -/
def sha256 (msg : List Nat) : List Nat :=
  let padded := sha256Pad msg
  ((chunks64 padded.length padded).foldl sha256Compress sha256H0).map be32Bytes |>.flatten

/-- HMAC-SHA256 (RFC 2104), exactly as `hmac.New(sha256.New, key)` computes
it: keys longer than the 64-byte block are hashed first, then zero-padded,
and the inner and outer pads are 0x36 and 0x5c. -/
def hmacSha256 (key msg : List Nat) : List Nat :=
  let k1 := if key.length > 64 then sha256 key else key
  let k0 := k1 ++ List.replicate (64 - k1.length) 0
  sha256 ((k0.map (fun b => b ^^^ 92)) ++ sha256 ((k0.map (fun b => b ^^^ 54)) ++ msg))

set_option maxRecDepth 1000000 in
example : sha256 [] =
    [227, 176, 196, 66, 152, 252, 28, 20, 154, 251, 244, 200, 153, 111, 185, 36, 39, 174,
     65, 228, 100, 155, 147, 76, 164, 149, 153, 27, 120, 82, 184, 85] := by decide

set_option maxRecDepth 1000000 in
example : sha256 [97, 98, 99] =
    [186, 120, 22, 191, 143, 1, 207, 234, 65, 65, 64, 222, 93, 174, 34, 35, 176, 3, 97,
     163, 150, 23, 122, 156, 180, 16, 255, 97, 242, 0, 21, 173] := by decide

set_option maxRecDepth 1000000 in
example : hmacSha256 [74, 101, 102, 101]
    [119, 104, 97, 116, 32, 100, 111, 32, 121, 97, 32, 119, 97, 110, 116, 32, 102, 111,
     114, 32, 110, 111, 116, 104, 105, 110, 103, 63] =
    [91, 220, 193, 70, 191, 96, 117, 78, 106, 4, 36, 38, 8, 149, 117, 199, 90, 0, 63, 8,
     157, 39, 57, 131, 157, 236, 88, 185, 100, 236, 56, 67] := by decide

/-- Incremental state of the Go `hash.Hash` returned by `hmac.New`: the key
and the bytes written so far.  Go's incremental SHA-256 computes the same
digest as hashing all accumulated bytes at once, so the accumulated byte
string is the faithful state. -/
structure HmacHasher where
  key : List Nat
  written : List Nat

/-- The hasher built by `hmac.New(sha256.New, key)` before any write. -/
def hmacNew (key : List Nat) : HmacHasher := ⟨key, []⟩

/-- One `io.WriteString(hasher, data)` call. -/
def hmacWrite (hsh : HmacHasher) (data : List Nat) : HmacHasher :=
  { hsh with written := hsh.written ++ data }

/-- The `hasher.Sum(nil)` finalization. -/
def hmacSum (hsh : HmacHasher) : List Nat := hmacSha256 hsh.key hsh.written

/-- Embedding of `SimpleSigner.SignRequest` (signer file): an HMAC-SHA256
hasher keyed by the API secret receives the endpoint, nonce, API token and
request body in that order, and the digest is returned with a nil error;
the function has no failing branch, so the error type is `Empty`. -/
def signRequest (apiSecret endpoint nonce apiToken requestBody : List Nat) :
    Except Empty (List Nat) :=
  let hasher := hmacNew apiSecret
  let hasher := hmacWrite hasher endpoint
  let hasher := hmacWrite hasher nonce
  let hasher := hmacWrite hasher apiToken
  let hasher := hmacWrite hasher requestBody
  .ok (hmacSum hasher)

/-- Claim C6: for every secret, endpoint, nonce, access token and body,
SignRequest returns without error the HMAC-SHA256, keyed by the secret, of
the delimiter-free concatenation endpoint + nonce + token + body, and the
signature depends only on the secret and that concatenation. -/
theorem signRequest_claimC6 (secret e n t b : List Nat) :
    signRequest secret e n t b = .ok (hmacSha256 secret (e ++ n ++ t ++ b)) ∧
    (∀ r, signRequest secret e n t b = .error r → False) ∧
    (∀ e2 n2 t2 b2, e ++ n ++ t ++ b = e2 ++ n2 ++ t2 ++ b2 →
      signRequest secret e n t b = signRequest secret e2 n2 t2 b2) := by
  have hval : ∀ e1 n1 t1 b1 : List Nat, signRequest secret e1 n1 t1 b1 =
      .ok (hmacSha256 secret (e1 ++ n1 ++ t1 ++ b1)) := by
    intro e1 n1 t1 b1
    simp [signRequest, hmacNew, hmacWrite, hmacSum, List.append_assoc]
  refine ⟨hval e n t b, ?_, ?_⟩
  · intro r _
    exact r.elim
  · intro e2 n2 t2 b2 hcat
    rw [hval, hval, hcat]

/-- Claim C6 witness: two different field tuples with the same
concatenation produce the same signature. -/
theorem signRequest_claimC6_witness :
    signRequest [1] [2, 3] [4] [] [5] = signRequest [1] [2] [3, 4] [5] [] :=
  (signRequest_claimC6 [1] [2, 3] [4] [] [5]).2.2 [2] [3, 4] [5] [] (by decide)

/-- Character of the standard base64 alphabet at a sextet index. -/
def b64Char (i : Nat) : Nat :=
  if i < 26 then 65 + i
  else if i < 52 then 97 + (i - 26)
  else if i < 62 then 48 + (i - 52)
  else if i = 62 then 43
  else 47

/-- Standard base64 encoding with padding of a byte string, as
`base64.StdEncoding.EncodeToString` produces it (output as ASCII bytes). -/
def base64Encode : List Nat → List Nat
  | [] => []
  | [a] => [b64Char (a / 4), b64Char (a % 4 * 16), 61, 61]
  | [a, b] => [b64Char (a / 4), b64Char (a % 4 * 16 + b / 16), b64Char (b % 16 * 4), 61]
  | a :: b :: c :: rest =>
    b64Char (a / 4) :: b64Char (a % 4 * 16 + b / 16) :: b64Char (b % 16 * 4 + c / 64) ::
      b64Char (c % 64) :: base64Encode rest

example : base64Encode [77, 97, 110] = [84, 87, 70, 117] := by decide

/-- The authentication-relevant data assembled by one `Wallet.PostRequest`
call: the nonce value handed to the signer, the nonce sent in the Nonce
header, and how many bytes were read from the random source. -/
structure PostRequestAuth where
  signerNonce : List Nat
  headerNonce : List Nat
  randomBytesRead : Nat
deriving DecidableEq

/-- Embedding of the nonce handling in `Wallet.PostRequest` (wallet.go).
The `crypto/rand` source is outside the embedded sources, so the random
stream supplied to this call is the argument; `rand.Read` fills the
16-byte `nonceBytes` buffer from it (an error return of the source, here a
too-short stream, aborts the call), and the base64 encoding of those bytes
is bound to the single variable `nonce`, which is passed to the signer and
set in the Nonce header.  No state other than the argument enters the
nonce. -/
def postRequestAuth (randSource : List Nat) : Option PostRequestAuth :=
  if randSource.length < 16 then none
  else
    let nonce := base64Encode (randSource.take 16)
    some { signerNonce := nonce, headerNonce := nonce, randomBytesRead := 16 }

/-- Claim C7: every PostRequest call reads exactly 16 (hence at least 16)
bytes from the random source, base64-encodes them into the nonce, hands the
same nonce to the signer and the Nonce header, and the nonce is a function
of that call's random read only. -/
theorem postRequest_claimC7 (randSource : List Nat) (h : 16 ≤ randSource.length) :
    postRequestAuth randSource =
      some { signerNonce := base64Encode (randSource.take 16),
             headerNonce := base64Encode (randSource.take 16),
             randomBytesRead := 16 } ∧
    (∀ auth, postRequestAuth randSource = some auth →
      auth.signerNonce = auth.headerNonce ∧ auth.randomBytesRead = 16 ∧
        16 ≤ auth.randomBytesRead ∧
        auth.headerNonce = base64Encode (randSource.take 16)) ∧
    (∀ other : List Nat, randSource.take 16 = other.take 16 →
      postRequestAuth randSource = postRequestAuth other) := by
  have hn : ¬ randSource.length < 16 := by omega
  refine ⟨?_, ?_, ?_⟩
  · simp [postRequestAuth, hn]
  · intro auth ha
    rw [postRequestAuth, if_neg hn] at ha
    cases ha
    exact ⟨rfl, rfl, le_refl 16, rfl⟩
  · intro other htake
    have hlen2 : ¬ other.length < 16 := by
      have h1 : (randSource.take 16).length = 16 := by
        rw [List.length_take]
        omega
      rw [htake, List.length_take] at h1
      omega
    rw [postRequestAuth, postRequestAuth, if_neg hn, if_neg hlen2, htake]

/-- Claim C7 witness: the statement instantiated at a 16-byte zero random
read. -/
theorem postRequest_claimC7_witness :
    postRequestAuth (List.replicate 16 0) =
      some { signerNonce := base64Encode ((List.replicate 16 0).take 16),
             headerNonce := base64Encode ((List.replicate 16 0).take 16),
             randomBytesRead := 16 } :=
  (postRequest_claimC7 (List.replicate 16 0) (by decide)).1

/-- Phase of one fetch goroutine in `Reader.BalanceAndFee` after its fetch
call has returned: an erroring goroutine first offers its error on the
shared error channel, then — like a successful one — offers its result
value on its result channel (the Go source falls through to the second
select even on the error path, where the result is nil), each send
select-guarded by ctx.Done(); after the second select it exits. -/
inductive WorkerPhase where
  | atErrSend
  | atResSend
  | finished
deriving DecidableEq

/-- What the aggregator loop of `Reader.BalanceAndFee` returned: both
results with a nil error, or the first received error together with a
snapshot of which partial results had already arrived. -/
inductive AggReturn where
  | success
  | withError (fromBalance gotBalance gotFees : Bool)
deriving DecidableEq

/-- Global state of one `Reader.BalanceAndFee` call: the two goroutine
phases, which results the two-iteration aggregator select loop has
received, and the aggregator's return value if it has returned.  The
deferred `cancel()` fires exactly when the aggregator returns, so the
shared context is cancelled precisely when `ret` is not `none`. -/
structure BFState where
  balPhase : WorkerPhase
  feePhase : WorkerPhase
  gotBal : Bool
  gotFee : Bool
  ret : Option AggReturn
deriving DecidableEq

/-- Initial state: both goroutines are launched concurrently and each fetch
outcome is fixed by the parameter (`true` means that fetch fails). -/
def bfInit (balErrs feeErrs : Bool) : BFState :=
  { balPhase := if balErrs then .atErrSend else .atResSend,
    feePhase := if feeErrs then .atErrSend else .atResSend,
    gotBal := false,
    gotFee := false,
    ret := none }

/-- All goroutine phases. -/
def allWorkerPhases : List WorkerPhase := [.atErrSend, .atResSend, .finished]

/-- All aggregator return values. -/
def allAggReturns : List AggReturn :=
  .success :: ([false, true].flatMap fun f => [false, true].flatMap fun gb =>
    [false, true].map fun gf => .withError f gb gf)

/-- All call states. -/
def allBFStates : List BFState :=
  allWorkerPhases.flatMap fun bp => allWorkerPhases.flatMap fun fp =>
    [false, true].flatMap fun gb => [false, true].flatMap fun gf =>
      (none :: allAggReturns.map some).map fun r => ⟨bp, fp, gb, gf, r⟩

theorem mem_allWorkerPhases (p : WorkerPhase) : p ∈ allWorkerPhases := by
  cases p <;> decide

theorem mem_allAggReturns (r : AggReturn) : r ∈ allAggReturns := by
  cases r with
  | success => decide
  | withError f gb gf => cases f <;> cases gb <;> cases gf <;> decide

theorem mem_allBFStates (s : BFState) : s ∈ allBFStates := by
  obtain ⟨bp, fp, gb, gf, r⟩ := s
  have hgb : gb ∈ [false, true] := by cases gb <;> decide
  have hgf : gf ∈ [false, true] := by cases gf <;> decide
  have hr : r ∈ none :: allAggReturns.map some := by
    cases r with
    | none => exact List.mem_cons_self _ _
    | some a => exact List.mem_cons_of_mem _ (List.mem_map_of_mem some (mem_allAggReturns a))
  simp only [allBFStates, List.mem_flatMap, List.mem_map]
  exact ⟨bp, mem_allWorkerPhases bp, fp, mem_allWorkerPhases fp, gb, hgb, gf, hgf,
    r, hr, rfl⟩

theorem forall_bfStates {p : BFState → Prop} [DecidablePred p]
    (h : (allBFStates.all fun s => decide (p s)) = true) : ∀ s : BFState, p s := by
  intro s
  exact of_decide_eq_true (List.all_eq_true.mp h s (mem_allBFStates s))

/-- Interleaving steps.  All channels are unbuffered, so a send happens
exactly when the aggregator sits in its select loop (ret = none); an error
rendezvous makes the aggregator return at once with the error and the
current partials; a result rendezvous that completes the second receive
makes the loop exit with success; after cancellation each goroutine can
take the ctx.Done() branch of whichever select it is blocked in. -/
def bfSuccs (s : BFState) : List BFState :=
  (if s.balPhase = .atErrSend ∧ s.ret = none then
    [{ s with balPhase := .atResSend, ret := some (.withError true s.gotBal s.gotFee) }]
  else []) ++
  (if s.feePhase = .atErrSend ∧ s.ret = none then
    [{ s with feePhase := .atResSend, ret := some (.withError false s.gotBal s.gotFee) }]
  else []) ++
  (if s.balPhase = .atErrSend ∧ s.ret ≠ none then
    [{ s with balPhase := .atResSend }]
  else []) ++
  (if s.feePhase = .atErrSend ∧ s.ret ≠ none then
    [{ s with feePhase := .atResSend }]
  else []) ++
  (if s.balPhase = .atResSend ∧ s.ret = none then
    [{ s with
        balPhase := .finished
        gotBal := true
        ret := if s.gotFee then some .success else none }]
  else []) ++
  (if s.feePhase = .atResSend ∧ s.ret = none then
    [{ s with
        feePhase := .finished
        gotFee := true
        ret := if s.gotBal then some .success else none }]
  else []) ++
  (if s.balPhase = .atResSend ∧ s.ret ≠ none then
    [{ s with balPhase := .finished }]
  else []) ++
  (if s.feePhase = .atResSend ∧ s.ret ≠ none then
    [{ s with feePhase := .finished }]
  else [])

/-- One interleaving step. -/
def bfStep (s t : BFState) : Prop := t ∈ bfSuccs s

/-- States reachable from the initial state of a call whose fetch outcomes
are the parameters. -/
def bfReachable (balErrs feeErrs : Bool) (s : BFState) : Prop :=
  Relation.ReflTransGen bfStep (bfInit balErrs feeErrs) s

/-- A state in which no goroutine and not the aggregator can take another
step. -/
def bfTerminal (s : BFState) : Prop := bfSuccs s = []

/-- Variant that strictly decreases along every step, bounding every
execution of the call. -/
def bfMeasure (s : BFState) : Nat :=
  (match s.balPhase with
    | .atErrSend => 2
    | .atResSend => 1
    | .finished => 0) +
  (match s.feePhase with
    | .atErrSend => 2
    | .atResSend => 1
    | .finished => 0) +
  (if s.ret = none then 1 else 0) +
  (if s.gotBal then 0 else 1) + (if s.gotFee then 0 else 1)

/-- Inductive invariant of `Reader.BalanceAndFee` executions. -/
def bfInv (balErrs feeErrs : Bool) (s : BFState) : Prop :=
  (s.balPhase = .atErrSend → balErrs = true) ∧
  (s.feePhase = .atErrSend → feeErrs = true) ∧
  (balErrs = true → s.balPhase ≠ .atErrSend → s.ret ≠ none) ∧
  (feeErrs = true → s.feePhase ≠ .atErrSend → s.ret ≠ none) ∧
  (s.gotBal = true → balErrs = false ∧ s.balPhase = .finished) ∧
  (s.gotFee = true → feeErrs = false ∧ s.feePhase = .finished) ∧
  (s.balPhase = .finished → s.gotBal = true ∨ s.ret ≠ none) ∧
  (s.feePhase = .finished → s.gotFee = true ∨ s.ret ≠ none) ∧
  (s.gotBal = true → s.gotFee = true → s.ret ≠ none) ∧
  (s.ret = some .success → s.gotBal = true ∧ s.gotFee = true) ∧
  (∀ f gb gf, s.ret = some (.withError f gb gf) →
    gb = s.gotBal ∧ gf = s.gotFee ∧
    (f = true → balErrs = true) ∧ (f = false → feeErrs = true))

set_option synthInstance.maxSize 2000 in
set_option synthInstance.maxHeartbeats 1000000 in
instance (be fe : Bool) (s : BFState) : Decidable (bfInv be fe s) := by
  unfold bfInv
  infer_instance

instance (s : BFState) : Decidable (bfTerminal s) := by
  unfold bfTerminal
  infer_instance

set_option maxRecDepth 1000000 in
/-- Claim C8: (1) every interleaving step strictly decreases the variant,
so every execution of `Reader.BalanceAndFee` terminates; (2) in every
reachable stuck state the aggregator has returned and both goroutines have
exited — no goroutine outlives the call blocked on a send; (3) when both
fetches succeed every maximal execution returns both results with a nil
error; (4) any error return carries the first error received — from a
branch that really failed — together with exactly the partial successful
results that had arrived by then (a partial can only be present for a
branch that succeeded). -/
theorem balanceAndFee_claimC8 :
    (∀ s : BFState, ∀ t ∈ bfSuccs s, bfMeasure t < bfMeasure s) ∧
    (∀ be fe : Bool, ∀ s : BFState, bfReachable be fe s → bfTerminal s →
      s.balPhase = .finished ∧ s.feePhase = .finished ∧ s.ret ≠ none) ∧
    (∀ s : BFState, bfReachable false false s → bfTerminal s →
      s.ret = some .success ∧ s.gotBal = true ∧ s.gotFee = true) ∧
    (∀ be fe : Bool, ∀ s : BFState, bfReachable be fe s →
      ∀ f gb gf, s.ret = some (.withError f gb gf) →
        gb = s.gotBal ∧ gf = s.gotFee ∧
        (f = true → be = true) ∧ (f = false → fe = true) ∧
        (gb = true → be = false) ∧ (gf = true → fe = false)) := by
  have hinit : ∀ be fe : Bool, bfInv be fe (bfInit be fe) := by decide
  have hpres : ∀ be fe : Bool, ∀ s : BFState, bfInv be fe s →
      ∀ t ∈ bfSuccs s, bfInv be fe t := by
    intro be fe
    apply forall_bfStates
    cases be <;> cases fe <;> decide
  have hreach : ∀ be fe : Bool, ∀ s : BFState, bfReachable be fe s → bfInv be fe s := by
    intro be fe s h
    induction h with
    | refl => exact hinit be fe
    | tail _ hst ih => exact hpres be fe _ ih _ hst
  have hterm : ∀ be fe : Bool, ∀ s : BFState, bfInv be fe s → bfTerminal s →
      s.balPhase = .finished ∧ s.feePhase = .finished ∧ s.ret ≠ none := by
    intro be fe
    apply forall_bfStates
    cases be <;> cases fe <;> decide
  have hsucc : ∀ s : BFState, bfInv false false s → bfTerminal s →
      s.ret = some .success ∧ s.gotBal = true ∧ s.gotFee = true := by
    apply forall_bfStates
    decide
  have herr : ∀ be fe : Bool, ∀ s : BFState, bfInv be fe s →
      ∀ f gb gf, s.ret = some (.withError f gb gf) →
        gb = s.gotBal ∧ gf = s.gotFee ∧
        (f = true → be = true) ∧ (f = false → fe = true) ∧
        (gb = true → be = false) ∧ (gf = true → fe = false) := by
    intro be fe
    apply forall_bfStates
    cases be <;> cases fe <;> decide
  have hmeas : ∀ s : BFState, ∀ t ∈ bfSuccs s, bfMeasure t < bfMeasure s := by
    apply forall_bfStates
    decide
  refine ⟨hmeas, ?_, ?_, ?_⟩
  · intro be fe s hr ht
    exact hterm be fe s (hreach be fe s hr) ht
  · intro s hr ht
    exact hsucc s (hreach false false s hr) ht
  · intro be fe s hr f gb gf hret
    exact herr be fe s (hreach be fe s hr) f gb gf hret

/-- Claim C8 witness: the both-succeed execution in which the balance
result arrives first and then the fee result reaches the terminal state
returning success with both results. -/
theorem balanceAndFee_claimC8_witness :
    BFState.ret ⟨.finished, .finished, true, true, some .success⟩ = some .success ∧
      BFState.gotBal ⟨.finished, .finished, true, true, some .success⟩ = true ∧
      BFState.gotFee ⟨.finished, .finished, true, true, some .success⟩ = true :=
  balanceAndFee_claimC8.2.2.1 ⟨.finished, .finished, true, true, some .success⟩
    (Relation.ReflTransGen.tail
      (Relation.ReflTransGen.tail (Relation.ReflTransGen.refl)
        (show BFState.mk .finished .atResSend true false none ∈ bfSuccs (bfInit false false)
          by decide))
      (show BFState.mk .finished .finished true true (some .success) ∈
          bfSuccs ⟨.finished, .atResSend, true, false, none⟩ by decide))
    (by decide)

example : decodeAmount [53, 48, 48, 110] = .ok 50000 := by decide
example : decodeAmount [49, 48, 117] = .ok 1000000 := by decide
example : decodeAmount [49, 109] = .ok 100000000 := by decide
example : decodeAmount [49] = .ok 100000000000 := by decide
example : decodeAmount [49, 112] = .error .belowMinimumP := by decide
example : decodeAmount [49, 53, 112] = .error .notExpressibleP := by decide
example : decodeAmount [49, 48, 112] = .ok 1 := by decide
example : decodeAmount [49, 113] = .error (.unknownMultiplier 113) := by decide

end Wos
